import Mathlib

/-!
# Verification of the `ai_web_agent` repository core

Shallow embedding of the repository's turn-driven action-dispatch loop
(`agent.py`), its action parser, the streaming response consumer, the
history trimmer, the session memory (`memory.py`) and the TF-IDF mini
vector store (`rag.py`).

Python strings are modelled as `List Char`.  External collaborators
(the llama model backend, the web-search backend, the page fetcher, the
HTML-to-text extractor and the crawler) are parameters of the model, as
the specification treats them as opaque interfaces.  Real-number
quantities computed with floats in the source (TF-IDF weights, cosine
scores) are modelled exactly over `ℝ`.
-/

namespace AIWebAgent

/-- Python's `\s` character class (`[ \t\n\r\x0b\x0c]`, stated on code
points), which also backs `str.strip` for the strings appearing in this
program. -/
def pyWs (c : Char) : Bool :=
  decide (c.toNat = 32 ∨ c.toNat = 9 ∨ c.toNat = 10 ∨ c.toNat = 13 ∨
          c.toNat = 11 ∨ c.toNat = 12)

/-- Python `str.strip()`. -/
def pyStrip (s : List Char) : List Char :=
  ((s.dropWhile pyWs).reverse.dropWhile pyWs).reverse

/-- Python `str.lstrip()`. -/
def pyLstrip (s : List Char) : List Char := s.dropWhile pyWs

/-- Lower-casing of a character (`str.lower` restricted to the ASCII
characters this program manipulates). -/
def lowerList (s : List Char) : List Char := s.map Char.toLower

/-- A double or single quote, the `["\']` class of `_ACTION_RE`. -/
def isQuote (c : Char) : Bool := decide (c.toNat = 34 ∨ c.toNat = 39)

/-- Python's `\w` class on ASCII input: letters, digits, underscore
(stated on code points). -/
def isWordChar (c : Char) : Bool :=
  decide ((65 ≤ c.toNat ∧ c.toNat ≤ 90) ∨ (97 ≤ c.toNat ∧ c.toNat ≤ 122) ∨
          (48 ≤ c.toNat ∧ c.toNat ≤ 57) ∨ c.toNat = 95)

/-- Consume the literal `pat` (given in lower case) case-insensitively from
the front of `s`, returning the remainder; models an `re.I` literal. -/
def ciLit : List Char → List Char → Option (List Char)
  | [], s => some s
  | _ :: _, [] => none
  | p :: ps, c :: cs => if c.toLower = p then ciLit ps cs else none

/-- `agent.py` `_DONE_RE = r"^Action:\s*Done!\s*$"` with `re.I`, applied by
`re.match`: the case-insensitive literal `Action:`, optional whitespace, the
case-insensitive literal `Done!`, then only whitespace to the end of the
string (the `\s*$` tail of the pattern). -/
def doneMatch (s : List Char) : Bool :=
  match ciLit "action:".data s with
  | none => false
  | some r =>
    match ciLit "done!".data (r.dropWhile pyWs) with
    | none => false
    | some r2 => r2.all pyWs

/-- The `\s*\)\s*$` tail of `_ACTION_RE`: optional whitespace, a closing
parenthesis, then only whitespace up to the end. -/
def closeParenTail (v : List Char) : Bool :=
  match v.dropWhile pyWs with
  | ')' :: r => r.all pyWs
  | _ => false

/-- Whether the remainder `u` after the lazily matched argument group can be
completed by `["\']?\s*\)\s*$` (the optional closing quote tried first, as
the regex engine does). -/
def argTailOk (u : List Char) : Bool :=
  (match u with
   | c :: r => isQuote c && closeParenTail r
   | [] => false) || closeParenTail u

/-- The lazy group `(.*?)` of `_ACTION_RE` followed by `["\']?\s*\)\s*$`:
try the shortest argument first (`.` does not cross a newline), returning
the captured group of the first way the tail can match. -/
def lazyArg : List Char → Option (List Char)
  | [] => if argTailOk [] then some [] else none
  | c :: r =>
    if argTailOk (c :: r) then some []
    else if c = '\n' then none
    else (lazyArg r).map (fun m => c :: m)

/-- `agent.py` `_ACTION_RE = r'^Action:\s*(\w+)\s*\(\s*["\']?(.*?)["\']?\s*\)\s*$'`
with `re.I`, applied by `re.match`; returns the two captured groups
`(verb, raw argument)` of the match the backtracking engine finds first.
The leading greedy pieces are deterministic because their character classes
are disjoint from what follows; the opening-quote alternative is explored
before the quote-less one, exactly as the engine orders its choices. -/
def actionMatch (s : List Char) : Option (List Char × List Char) :=
  match ciLit "action:".data s with
  | none => none
  | some r0 =>
    let r1 := r0.dropWhile pyWs
    let verb := r1.takeWhile isWordChar
    if verb = [] then none
    else
      match (r1.dropWhile isWordChar).dropWhile pyWs with
      | '(' :: r4 =>
        let r5 := r4.dropWhile pyWs
        let quoted :=
          match r5 with
          | c :: rt => if isQuote c then lazyArg rt else none
          | [] => none
        match quoted with
        | some m => some (verb, m)
        | none => (lazyArg r5).map (fun m => (verb, m))
      | _ => none

/-- `agent.py` `_SUPPORTED`. -/
def SUPPORTED : List String := ["search", "open", "find", "crawl", "recall", "done"]

/-- `agent.py` `_parse_single_action`: `Done!` lines first, then the general
action regex with the supported-verb check; an unsupported verb is dropped
(the warning side effect is modelled by `parseWarning`). -/
def parseSingleAction (line : List Char) : Option (String × String) :=
  if doneMatch line then some ("done", "")
  else
    match actionMatch line with
    | some (verb, arg) =>
      let verbL := String.mk (lowerList verb)
      if verbL ∈ SUPPORTED then some (verbL, String.mk (pyStrip arg))
      else none
    | none => none

/-- True exactly when `_parse_single_action` prints its
`[Warning] Ignoring unsupported action` message for this line. -/
def parseWarning (line : List Char) : Bool :=
  !doneMatch line &&
    (match actionMatch line with
     | some (verb, _) => decide (String.mk (lowerList verb) ∉ SUPPORTED)
     | none => false)

-- ───────────────────────── tunables of `agent.py` ─────────────────────────

def MAX_LOOPS : Nat := 4
def MIN_SUPPORT_SOURCES : Nat := 1
def MAX_HISTORY_CHARS : Nat := 12000
def ACTION_LIMIT : Nat := 4
def ACTIONS_PER_TURN : Nat := 4

/-- Python `str.splitlines()` for strings whose only line break is `'\n'`
(the only break the program produces): split on `'\n'`, without a trailing
empty line for a trailing newline, and `[]` for the empty string. -/
def splitLines (s : List Char) : List (List Char) :=
  if s = [] then []
  else if s.getLast? = some '\n' then (s.splitOn '\n').dropLast
  else s.splitOn '\n'

/-- `raw.lower().startswith("action:")`. -/
def startsWithActionCI (l : List Char) : Bool :=
  (ciLit "action:".data l).isSome

/-- The scanning loop of `agent.py` `_extract_actions`: accumulate parsed
actions from the `Action:`-prefixed lines, breaking once the accumulator
reaches `limit` or a `done` action was just appended. -/
def extractGo (limit : Nat) : List (List Char) → List (String × String) → List (String × String)
  | [], acc => acc
  | raw :: rest, acc =>
    let line := pyStrip raw
    if !startsWithActionCI line then extractGo limit rest acc
    else
      match parseSingleAction line with
      | none => extractGo limit rest acc
      | some a =>
        let acc' := acc ++ [a]
        if limit ≤ acc'.length ∨ a.1 = "done" then acc' else extractGo limit rest acc'

/-- `agent.py` `_extract_actions`. -/
def extractActions (block : List Char) (limit : Nat) : List (String × String) :=
  extractGo limit (splitLines block) []

/-- `agent.py` `_has_valid_format`. -/
def hasValidFormat (block : List Char) : Bool :=
  "Thought:".data.isPrefixOf (pyLstrip block) && !(extractActions block ACTION_LIMIT).isEmpty

/-- `agent.py` `_select_actions`: keep only the first suggested action. -/
def selectActions (actions : List (String × String)) : List (String × String) :=
  actions.take 1

-- ───────────────────────── character-class lemmas ─────────────────────────

lemma char_toNat_ofNat {n : Nat} (h : n < 55296) : (Char.ofNat n).toNat = n := by
  have hv : n.isValidChar := Or.inl h
  rw [Char.ofNat, dif_pos hv]
  rfl

lemma toLower_toNat (c : Char) :
    c.toLower.toNat = if 65 ≤ c.toNat ∧ c.toNat ≤ 90 then c.toNat + 32 else c.toNat := by
  by_cases h : 65 ≤ c.toNat ∧ c.toNat ≤ 90
  · have hc : c.toLower = Char.ofNat (c.toNat + 32) := by
      unfold Char.toLower
      exact if_pos h
    rw [hc, if_pos h, char_toNat_ofNat (by omega)]
  · have hc : c.toLower = c := by
      unfold Char.toLower
      exact if_neg h
    rw [hc, if_neg h]

lemma pyWs_toLower (c : Char) : pyWs c.toLower = pyWs c := by
  simp only [pyWs, decide_eq_decide, toLower_toNat]
  split <;> omega

lemma isWordChar_toLower (c : Char) : isWordChar c.toLower = isWordChar c := by
  simp only [isWordChar, decide_eq_decide, toLower_toNat]
  split <;> omega

lemma not_pyWs_of_isWordChar {c : Char} (h : isWordChar c = true) : pyWs c = false := by
  simp only [isWordChar, decide_eq_true_eq] at h
  simp only [pyWs, decide_eq_false_iff_not]
  omega

-- ───────────────────────── `ciLit` lemmas ─────────────────────────

lemma ciLit_lower_append (p s : List Char) : ciLit (lowerList p) (p ++ s) = some s := by
  induction p with
  | nil => rfl
  | cons c cs ih => simpa [lowerList, ciLit] using ih

lemma ciLit_of_lower (pat pre s : List Char) (h : lowerList pre = pat) :
    ciLit pat (pre ++ s) = some s := by
  subst h
  exact ciLit_lower_append pre s

lemma ciLit_eq_some {pat : List Char} :
    ∀ {s r : List Char}, ciLit pat s = some r → ∃ p, s = p ++ r ∧ lowerList p = pat := by
  induction pat with
  | nil =>
    intro s r h
    simp only [ciLit, Option.some.injEq] at h
    exact ⟨[], by simp [h], rfl⟩
  | cons p ps ih =>
    intro s r h
    match s with
    | [] => simp [ciLit] at h
    | c :: cs =>
      simp only [ciLit] at h
      split at h
      · obtain ⟨p', hp', hl'⟩ := ih h
        refine ⟨c :: p', by simp [hp'], ?_⟩
        simp only [lowerList, List.map_cons] at *
        rename_i hc
        rw [hc, hl']
      · exact absurd h (by simp)

-- ─────────────────── takeWhile/dropWhile helper lemmas ───────────────────

lemma takeWhile_all_append {p : Char → Bool} :
    ∀ {l : List Char}, (∀ c ∈ l, p c = true) → ∀ {y : Char}, p y = false →
      ∀ t, (l ++ y :: t).takeWhile p = l := by
  intro l
  induction l with
  | nil => intro _ y hy t; simp [List.takeWhile_cons, hy]
  | cons a l ih =>
    intro hl y hy t
    have ha : p a = true := hl a (by simp)
    simp only [List.cons_append, List.takeWhile_cons, ha, if_true]
    rw [ih (fun c hc => hl c (by simp [hc])) hy t]

lemma dropWhile_all_append {p : Char → Bool} :
    ∀ {l : List Char}, (∀ c ∈ l, p c = true) → ∀ {y : Char}, p y = false →
      ∀ t, (l ++ y :: t).dropWhile p = y :: t := by
  intro l
  induction l with
  | nil => intro _ y hy t; simp [List.dropWhile_cons, hy]
  | cons a l ih =>
    intro hl y hy t
    have ha : p a = true := hl a (by simp)
    simp only [List.cons_append, List.dropWhile_cons, ha, if_true]
    exact ih (fun c hc => hl c (by simp [hc])) hy t

lemma dropWhile_append_of_neg {p : Char → Bool} {y : Char} (hy : p y = false)
    (l t : List Char) : (l ++ y :: t).dropWhile p = l.dropWhile p ++ y :: t := by
  induction l with
  | nil => simp [List.dropWhile_cons, hy]
  | cons a l ih =>
    by_cases h : p a <;> simp [List.dropWhile_cons, h, ih]

-- ───────────────────────── `lazyArg` lemmas ─────────────────────────

lemma lazyArg_isSome_of_split :
    ∀ (m rest : List Char), (∀ c ∈ m, c ≠ '\n') → argTailOk rest = true →
      (lazyArg (m ++ rest)).isSome = true := by
  intro m
  induction m with
  | nil =>
    intro rest _ hrest
    match rest with
    | [] => simp [lazyArg, hrest]
    | c :: r => simp [lazyArg, hrest]
  | cons c m ih =>
    intro rest hm hrest
    by_cases hok : argTailOk (c :: (m ++ rest)) = true
    · simp [lazyArg, hok]
    · have hc : c ≠ '\n' := hm c (by simp)
      have hrec := ih rest (fun x hx => hm x (by simp [hx])) hrest
      simp only [List.cons_append, lazyArg]
      rw [if_neg (by simpa using hok), if_neg hc]
      simpa using hrec

-- ─────────────── behaviour of the single-line parser ───────────────

lemma doneMatch_verb_paren_false (v a : List Char) (hv : v ≠ [])
    (hword : ∀ c ∈ v, isWordChar c = true) :
    doneMatch ("Action: ".data ++ (v ++ '(' :: (a ++ [')']))) = false := by
  obtain ⟨vc, vr, rfl⟩ : ∃ vc vr, v = vc :: vr := by
    cases v with
    | nil => exact absurd rfl hv
    | cons x xs => exact ⟨x, xs, rfl⟩
  have hline : "Action: ".data ++ (vc :: vr ++ '(' :: (a ++ [')']))
      = "Action:".data ++ (' ' :: (vc :: (vr ++ '(' :: (a ++ [')'])))) := by simp
  have hvc : pyWs vc = false := not_pyWs_of_isWordChar (hword vc (by simp))
  rw [hline]
  have hci : ciLit "action:".data
        ("Action:".data ++ (' ' :: (vc :: (vr ++ '(' :: (a ++ [')'])))))
      = some (' ' :: (vc :: (vr ++ '(' :: (a ++ [')'])))) :=
    ciLit_of_lower _ _ _ (by decide)
  simp only [doneMatch, hci]
  rw [List.dropWhile_cons_of_pos (by decide), List.dropWhile_cons_of_neg (by simp [hvc])]
  cases hdone : ciLit "done!".data (vc :: (vr ++ '(' :: (a ++ [')']))) with
  | none => rfl
  | some r2 =>
    exfalso
    obtain ⟨p, happ, hlow⟩ := ciLit_eq_some hdone
    have happ' : (vc :: vr) ++ ('(' :: (a ++ [')'])) = p ++ r2 := by simpa using happ
    have hplen : p.length = 5 := by
      have h := congrArg List.length hlow
      simpa [lowerList] using h
    rcases Nat.lt_or_ge (vc :: vr).length 5 with hlt | hge
    · -- the verb is short: the '(' would have to lower-case onto a letter of "done!"
      have hpar : '(' ∈ p := by
        have hp5 : p = (vc :: vr).take 5 ++ ('(' :: (a ++ [')'])).take (5 - (vc :: vr).length) := by
          have : p = (p ++ r2).take 5 := by
            rw [List.take_append_of_le_length (by omega), List.take_of_length_le (by omega)]
          rw [this, ← happ', List.take_append_eq_append_take]
        obtain ⟨k, hk⟩ : ∃ k, 5 - (vc :: vr).length = k + 1 :=
          ⟨4 - (vc :: vr).length, by omega⟩
        rw [hp5, hk, List.take_succ_cons]
        exact List.mem_append_right _ (by simp)
      have : Char.toLower '(' ∈ lowerList p := List.mem_map_of_mem _ hpar
      rw [hlow] at this
      exact absurd this (by decide)
    · -- the verb is long: the '!' of "done!" would have to come from a word character
      have hp : p = (vc :: vr).take 5 := by
        have : p = (p ++ r2).take 5 := by
          rw [List.take_append_of_le_length (by omega), List.take_of_length_le (by omega)]
        rw [this, ← happ', List.take_append_of_le_length hge]
      have hbang : ('!' : Char) ∈ lowerList p := by rw [hlow]; decide
      obtain ⟨c, hcp, hc⟩ := List.mem_map.1 hbang
      have hcv : c ∈ vc :: vr := List.take_subset 5 _ (hp ▸ hcp)
      have : isWordChar '!' = true := by
        rw [← hc, isWordChar_toLower]
        exact hword c hcv
      exact absurd this (by decide)

lemma actionMatch_verb_paren (v a : List Char) (hv : v ≠ [])
    (hword : ∀ c ∈ v, isWordChar c = true) (ha : ∀ c ∈ a, c ≠ '\n') :
    ∃ m, actionMatch ("Action: ".data ++ (v ++ '(' :: (a ++ [')']))) = some (v, m) := by
  obtain ⟨vc, vr, rfl⟩ : ∃ vc vr, v = vc :: vr := by
    cases v with
    | nil => exact absurd rfl hv
    | cons x xs => exact ⟨x, xs, rfl⟩
  have hline : "Action: ".data ++ (vc :: vr ++ '(' :: (a ++ [')']))
      = "Action:".data ++ (' ' :: ((vc :: vr) ++ '(' :: (a ++ [')']))) := by simp
  have hvc : pyWs vc = false := not_pyWs_of_isWordChar (hword vc (by simp))
  rw [hline]
  have hci : ciLit "action:".data
        ("Action:".data ++ (' ' :: ((vc :: vr) ++ '(' :: (a ++ [')']))))
      = some (' ' :: ((vc :: vr) ++ '(' :: (a ++ [')']))) :=
    ciLit_of_lower _ _ _ (by decide)
  have d0 : List.dropWhile pyWs (' ' :: vc :: (vr ++ '(' :: (a ++ [')'])))
      = vc :: (vr ++ '(' :: (a ++ [')'])) := by
    rw [List.dropWhile_cons_of_pos (show pyWs ' ' = true from by decide)]
    exact List.dropWhile_cons_of_neg (show ¬ pyWs vc = true from by simp [hvc])
  have e1 : List.takeWhile isWordChar (vc :: (vr ++ '(' :: (a ++ [')']))) = vc :: vr := by
    have h := takeWhile_all_append hword (show isWordChar '(' = false from by decide) (a ++ [')'])
    simpa using h
  have e2 : List.dropWhile isWordChar (vc :: (vr ++ '(' :: (a ++ [')'])))
      = '(' :: (a ++ [')']) := by
    have h := dropWhile_all_append hword (show isWordChar '(' = false from by decide) (a ++ [')'])
    simpa using h
  have d3 : List.dropWhile pyWs ('(' :: (a ++ [')'])) = '(' :: (a ++ [')']) :=
    List.dropWhile_cons_of_neg (show ¬ pyWs '(' = true from by decide)
  have d4 : List.dropWhile pyWs (a ++ [')']) = a.dropWhile pyWs ++ ')' :: [] :=
    dropWhile_append_of_neg (show pyWs ')' = false from by decide) a []
  simp only [List.cons_append, List.nil_append] at hci ⊢
  simp only [actionMatch, hci, d0, e1, e2, d3, d4, List.cons_ne_nil, if_false,
    reduceCtorEq, ite_false]
  have hsub : ∀ c ∈ a.dropWhile pyWs, c ≠ '\n' :=
    fun c hc => ha c (List.dropWhile_subset pyWs hc)
  cases hda : a.dropWhile pyWs with
  | nil =>
    refine ⟨[], ?_⟩
    simp [lazyArg, argTailOk, closeParenTail]
    decide
  | cons d ds =>
    have hds : ∀ c ∈ ds, c ≠ '\n' := fun c hc => hsub c (by rw [hda]; simp [hc])
    by_cases hq : isQuote d = true
    · have hsome := lazyArg_isSome_of_split ds [')'] hds (by decide)
      obtain ⟨m, hm⟩ := Option.isSome_iff_exists.1 hsome
      refine ⟨m, ?_⟩
      simp [hq, hm]
    · have hsome := lazyArg_isSome_of_split (d :: ds) [')']
        (fun c hc => hsub c (by rw [hda]; simpa using hc)) (by decide)
      obtain ⟨m, hm⟩ := Option.isSome_iff_exists.1 hsome
      refine ⟨m, ?_⟩
      simp only [List.cons_append] at hm
      simp [hq, hm]

lemma doneMatch_case_ws {l w : List Char} (hl : lowerList l = "action: done!".data)
    (hw : ∀ c ∈ w, pyWs c = true) : doneMatch (l ++ w) = true := by
  have hlen : l.length = 13 := by
    have h := congrArg List.length hl
    simpa [lowerList] using h
  obtain ⟨c, m, hcm⟩ : ∃ c m, l.drop 7 = c :: m := by
    cases hld : l.drop 7 with
    | nil =>
      exfalso
      have h2 := congrArg List.length hld
      simp [hlen] at h2
    | cons c m => exact ⟨c, m, rfl⟩
  have hmid : lowerList (c :: m) = " done!".data := by
    rw [← hcm]
    have h : lowerList (l.drop 7) = (lowerList l).drop 7 := by
      simp [lowerList, List.map_drop]
    rw [h, hl]
    decide
  have hc : c.toLower = ' ' ∧ lowerList m = "done!".data := by
    simpa [lowerList] using hmid
  obtain ⟨d, m2, hdm⟩ : ∃ d m2, m = d :: m2 := by
    cases hmm : m with
    | nil => rw [hmm] at hc; simp [lowerList] at hc
    | cons d m2 => exact ⟨d, m2, rfl⟩
  have hd : d.toLower = 'd' := by
    have h2 := hc.2
    rw [hdm] at h2
    have h3 : d.toLower = 'd' ∧ lowerList m2 = "one!".data := by
      simpa [lowerList] using h2
    exact h3.1
  have hsplit : l ++ w = l.take 7 ++ (c :: (m ++ w)) := by
    conv_lhs => rw [← List.take_append_drop 7 l]
    rw [hcm]
    simp
  have h7 : lowerList (l.take 7) = "action:".data := by
    have h : lowerList (l.take 7) = (lowerList l).take 7 := by
      simp [lowerList, List.map_take]
    rw [h, hl]
    decide
  rw [hsplit]
  have hci := ciLit_of_lower "action:".data (l.take 7) (c :: (m ++ w)) h7
  simp only [doneMatch, hci]
  have hpc : pyWs c = true := by
    rw [← pyWs_toLower, hc.1]
    decide
  have hpd : pyWs d = false := by
    rw [← pyWs_toLower, hd]
    decide
  rw [List.dropWhile_cons_of_pos hpc, hdm, List.cons_append,
    List.dropWhile_cons_of_neg (by simp [hpd]), ← List.cons_append, ← hdm]
  have hdone := ciLit_of_lower "done!".data m w hc.2
  simp only [hdone]
  exact List.all_eq_true.2 hw

/-- **C7**: the single-line action parser maps `Action: Done!` — in any
letter case, with trailing whitespace — to the zero-argument `("done", "")`
action; and any `Action: verb(argument)` line whose lower-cased verb is not
in the supported set yields `none` ("not an action") together with the
warning side effect.  Both parsing functions are total, so no exception can
be raised. -/
theorem C7_single_line_parsing :
    (∀ l w : List Char, lowerList l = "action: done!".data → (∀ c ∈ w, pyWs c = true) →
      parseSingleAction (l ++ w) = some ("done", "")) ∧
    (∀ v arg : List Char, v ≠ [] → (∀ c ∈ v, isWordChar c = true) →
      String.mk (lowerList v) ∉ SUPPORTED → (∀ c ∈ arg, c ≠ '\n') →
      parseSingleAction ("Action: ".data ++ (v ++ '(' :: (arg ++ [')']))) = none ∧
      parseWarning ("Action: ".data ++ (v ++ '(' :: (arg ++ [')']))) = true) := by
  constructor
  · intro l w hl hw
    simp [parseSingleAction, doneMatch_case_ws hl hw]
  · intro v arg hv hword hns ha
    have hd := doneMatch_verb_paren_false v arg hv hword
    obtain ⟨m, hm⟩ := actionMatch_verb_paren v arg hv hword ha
    constructor
    · unfold parseSingleAction
      rw [if_neg (by simpa using hd), hm]
      simp [hns]
    · unfold parseWarning
      rw [hd, hm]
      simp [hns]

/-- Witness for C7 at concrete inputs. -/
theorem C7_single_line_parsing_witness :
    parseSingleAction ("ACTioN: DoNe!".data ++ "  ".data) = some ("done", "") ∧
    parseSingleAction ("Action: ".data ++ ("Bogus".data ++ '(' :: ("\"x\"".data ++ [')']))) = none ∧
    parseWarning ("Action: ".data ++ ("Bogus".data ++ '(' :: ("\"x\"".data ++ [')']))) = true := by
  refine ⟨C7_single_line_parsing.1 _ _ (by decide) (by decide),
          (C7_single_line_parsing.2 "Bogus".data "\"x\"".data (by decide) (by decide)
            (by decide) (by decide)).1,
          (C7_single_line_parsing.2 "Bogus".data "\"x\"".data (by decide) (by decide)
            (by decide) (by decide)).2⟩

-- ─────────── C6: multi-action extraction and block validity ───────────

/-- Prefix of an action list up to and including its first `done` action. -/
def upToFirstDone : List (String × String) → List (String × String)
  | [] => []
  | a :: rest => if a.1 = "done" then [a] else a :: upToFirstDone rest

/-- The parsed actions of the `Action:`-prefixed lines of a block (prefix
compared case-insensitively, since the code lower-cases the line first),
in line order. -/
def parsedActionLines (block : List Char) : List (String × String) :=
  (((splitLines block).map pyStrip).filter startsWithActionCI).filterMap parseSingleAction

lemma extractGo_eq (limit : Nat) :
    ∀ (lines : List (List Char)) (acc : List (String × String)), acc.length < limit →
      extractGo limit lines acc
        = acc ++ (upToFirstDone
            (((lines.map pyStrip).filter startsWithActionCI).filterMap
              parseSingleAction)).take (limit - acc.length) := by
  intro lines
  induction lines with
  | nil => intro acc _; simp [extractGo, upToFirstDone]
  | cons raw rest ih =>
    intro acc hacc
    by_cases hsw : startsWithActionCI (pyStrip raw) = true
    · cases hp : parseSingleAction (pyStrip raw) with
      | none =>
        have hrhs : (((raw :: rest).map pyStrip).filter startsWithActionCI).filterMap
            parseSingleAction
            = ((rest.map pyStrip).filter startsWithActionCI).filterMap parseSingleAction := by
          simp [hsw, hp]
        rw [hrhs, ← ih acc hacc]
        simp [extractGo, hsw, hp]
      | some a =>
        have hrhs : (((raw :: rest).map pyStrip).filter startsWithActionCI).filterMap
            parseSingleAction
            = a :: ((rest.map pyStrip).filter startsWithActionCI).filterMap
                parseSingleAction := by
          simp [hsw, hp]
        rw [hrhs]
        simp only [extractGo, hsw, Bool.not_true, Bool.false_eq_true, if_false, hp]
        obtain ⟨k, hk⟩ : ∃ k, limit - acc.length = k + 1 :=
          ⟨limit - acc.length - 1, by omega⟩
        by_cases hdone : a.1 = "done"
        · rw [if_pos (Or.inr hdone)]
          simp only [upToFirstDone, hdone, if_true]
          rw [hk, List.take_succ_cons, List.take_nil]
        · simp only [upToFirstDone, hdone, if_false]
          rw [hk, List.take_succ_cons]
          by_cases hfull : limit ≤ (acc ++ [a]).length
          · rw [if_pos (Or.inl hfull)]
            have hk0 : k = 0 := by simp at hfull; omega
            rw [hk0, List.take_zero]
          · rw [if_neg (by simp at hfull ⊢; omega)]
            rw [ih (acc ++ [a]) (by simp at hfull ⊢; omega)]
            have hk2 : limit - (acc ++ [a]).length = k := by simp; omega
            rw [hk2]
            simp
    · have hrhs : (((raw :: rest).map pyStrip).filter startsWithActionCI).filterMap
          parseSingleAction
          = ((rest.map pyStrip).filter startsWithActionCI).filterMap parseSingleAction := by
        rw [List.map_cons, List.filter_cons_of_neg (by simpa using hsw)]
      rw [hrhs, ← ih acc hacc]
      simp [extractGo, hsw]

lemma extractGo_zero :
    ∀ (lines : List (List Char)),
      extractGo 0 lines []
        = (upToFirstDone
            (((lines.map pyStrip).filter startsWithActionCI).filterMap
              parseSingleAction)).take 1 := by
  intro lines
  induction lines with
  | nil => simp [extractGo, upToFirstDone]
  | cons raw rest ih =>
    by_cases hsw : startsWithActionCI (pyStrip raw) = true
    · cases hp : parseSingleAction (pyStrip raw) with
      | none =>
        have hrhs : (((raw :: rest).map pyStrip).filter startsWithActionCI).filterMap
            parseSingleAction
            = ((rest.map pyStrip).filter startsWithActionCI).filterMap parseSingleAction := by
          simp [hsw, hp]
        rw [hrhs, ← ih]
        simp [extractGo, hsw, hp]
      | some a =>
        have hrhs : (((raw :: rest).map pyStrip).filter startsWithActionCI).filterMap
            parseSingleAction
            = a :: ((rest.map pyStrip).filter startsWithActionCI).filterMap
                parseSingleAction := by
          simp [hsw, hp]
        rw [hrhs]
        simp only [extractGo, hsw, Bool.not_true, Bool.false_eq_true, if_false, hp]
        rw [if_pos (Or.inl (by simp))]
        by_cases hdone : a.1 = "done" <;> simp [upToFirstDone, hdone]
    · have hrhs : (((raw :: rest).map pyStrip).filter startsWithActionCI).filterMap
          parseSingleAction
          = ((rest.map pyStrip).filter startsWithActionCI).filterMap parseSingleAction := by
        rw [List.map_cons, List.filter_cons_of_neg (by simpa using hsw)]
      rw [hrhs, ← ih]
      simp [extractGo, hsw]

/-- **C6 (amended)**: extraction scans lines top to bottom, considers
exactly the lines whose trimmed form begins with `Action:` up to letter
case, returns the parsed actions in line order, stops immediately at the
first parsed `Done`, and returns at most `limit` actions when `limit ≥ 1`
(a zero limit still returns one action); a block is well-formed iff after
stripping leading whitespace it starts with `Thought:` and extraction
yields at least one action. -/
theorem C6_extraction_amended (block : List Char) (limit : Nat) :
    extractActions block limit
      = (upToFirstDone (parsedActionLines block)).take (max limit 1) ∧
    (extractActions block limit).length ≤ max limit 1 ∧
    (hasValidFormat block = true ↔
      "Thought:".data.isPrefixOf (pyLstrip block) = true ∧
        extractActions block ACTION_LIMIT ≠ []) := by
  have hmain : extractActions block limit
      = (upToFirstDone (parsedActionLines block)).take (max limit 1) := by
    cases limit with
    | zero =>
      simpa [extractActions, parsedActionLines] using extractGo_zero (splitLines block)
    | succ n =>
      have h := extractGo_eq (n + 1) (splitLines block) [] (by simp)
      rw [Nat.max_eq_left (by omega)]
      simpa [extractActions, parsedActionLines] using h
  refine ⟨hmain, ?_, ?_⟩
  · rw [hmain, List.length_take]
    exact Nat.min_le_left _ _
  · simp [hasValidFormat]

/-- **C6 counterexample**: the claim fails as stated on the code: (i) the
line `ACTION: Done!`, whose trimmed form does not begin with the literal
`Action:`, is considered and parsed; (ii) a block that starts with
whitespace rather than with the literal `Thought:` marker is nevertheless
well-formed; (iii) with a zero limit, extraction still returns one action
rather than none. -/
theorem C6_extraction_counterexample :
    extractActions "  Thought: x\nACTION: Done!".data 4 = [("done", "")] ∧
    hasValidFormat "  Thought: x\nACTION: Done!".data = true ∧
    extractActions "Thought: x\nAction: Search(\"a\")\nAction: Open(\"b\")".data 0
      = [("search", "a")] := by
  refine ⟨by decide, by decide, by decide⟩

-- ───────────── streaming response consumer (`_stream_until_actions`) ─────────────

/-- One item of the model's token stream: a text fragment, or the point at
which the underlying stream raises a decoding exception. -/
inductive StreamItem
  | tok (s : List Char)
  | err

/-- The consumption loop of `agent.py` `_stream_until_actions`: accumulate
tokens into `out` and into the current line `curr`; whenever a token ends
in a newline, parse the stripped current line as a single action and stop
at the first success (returning the stripped output so far); an exception
from the stream yields the empty string. -/
def consumeAux : List StreamItem → List Char → List Char → List Char
  | [], out, _ => pyStrip out
  | .err :: _, _, _ => []
  | .tok t :: rest, out, curr =>
    let out' := out ++ t
    let curr' := curr ++ t
    if t.getLast? = some '\n' then
      if (parseSingleAction (pyStrip curr')).isSome then pyStrip out'
      else consumeAux rest out' []
    else consumeAux rest out' curr'

/-- `agent.py` `_stream_until_actions`, as a function of the token stream
the model backend produces for the prompt. -/
def streamUntilActions (items : List StreamItem) : List Char :=
  consumeAux items [] []

/-- Whether the consumption loop halts — recognizes an action at the end of
a newline-completed line, or hits the stream exception — strictly within
the given items. -/
def consumeHalts : List StreamItem → List Char → Bool
  | [], _ => false
  | .err :: _, _ => true
  | .tok t :: rest, curr =>
    let curr' := curr ++ t
    if t.getLast? = some '\n' then
      if (parseSingleAction (pyStrip curr')).isSome then true
      else consumeHalts rest []
    else consumeHalts rest curr'

lemma consumeAux_halt_append :
    ∀ (pre post : List StreamItem) (out curr : List Char),
      consumeHalts pre curr = true →
      consumeAux (pre ++ post) out curr = consumeAux pre out curr := by
  intro pre
  induction pre with
  | nil => intro post out curr h; simp [consumeHalts] at h
  | cons it rest ih =>
    intro post out curr h
    cases it with
    | err => rfl
    | tok t =>
      simp only [consumeHalts] at h
      by_cases hnl : t.getLast? = some '\n'
      · rw [if_pos hnl] at h
        by_cases hp : (parseSingleAction (pyStrip (curr ++ t))).isSome = true
        · simp [consumeAux, hnl, hp]
        · rw [if_neg hp] at h
          simpa [consumeAux, hnl, hp] using ih post (out ++ t) [] h
      · rw [if_neg hnl] at h
        simpa [consumeAux, hnl] using ih post (out ++ t) (curr ++ t) h

lemma consumeAux_err :
    ∀ (pre post : List StreamItem) (out curr : List Char),
      consumeHalts pre curr = false →
      consumeAux (pre ++ StreamItem.err :: post) out curr = [] := by
  intro pre
  induction pre with
  | nil => intro post out curr _; rfl
  | cons it rest ih =>
    intro post out curr h
    cases it with
    | err => simp [consumeHalts] at h
    | tok t =>
      simp only [consumeHalts] at h
      by_cases hnl : t.getLast? = some '\n'
      · rw [if_pos hnl] at h
        by_cases hp : (parseSingleAction (pyStrip (curr ++ t))).isSome = true
        · rw [if_pos hp] at h
          exact absurd h (by simp)
        · rw [if_neg hp] at h
          simpa [consumeAux, hnl, hp] using ih post (out ++ t) [] h
      · rw [if_neg hnl] at h
        simpa [consumeAux, hnl] using ih post (out ++ t) (curr ++ t) h

-- ───────────── history trimming (`_trim_history`) ─────────────

/-- The tokenizing model backend seen by `_trim_history`: a context size
and tokenize/detokenize, the latter two able to raise (`none`).  A raise
inside the first `try` block is modelled by `tokenize` returning `none`. -/
structure LlmBackend where
  nCtx : Nat
  tokenize : List Char → Option (List Nat)
  detokenize : List Nat → Option (List Char)

/-- Python `xs[-k:]`, with the `-0` gotcha: a zero count keeps everything. -/
def takeLast {α : Type} (k : Nat) (s : List α) : List α :=
  if k = 0 then s else s.drop (s.length - k)

/-- `agent.py` `_trim_history` (reserve 400): token-aware trimming with a
character fallback of the last `MAX_HISTORY_CHARS` characters when the
backend raises, and a ratio-based character fallback (the float ratio is
modelled by the exact rational, floored) when detokenization raises. -/
def trimHistory (B : LlmBackend) (text : List Char) : List Char :=
  match B.tokenize text with
  | none => takeLast MAX_HISTORY_CHARS text
  | some tokens =>
    let maxIn := B.nCtx - 400
    if tokens.length ≤ maxIn then text
    else
      let keep := takeLast maxIn tokens
      match B.detokenize keep with
      | some out => out
      | none => takeLast (text.length * maxIn / tokens.length) text

lemma takeLast_suffix {α : Type} (k : Nat) (s : List α) : takeLast k s <:+ s := by
  unfold takeLast
  split
  · exact List.suffix_refl s
  · exact List.drop_suffix _ _

/-- The block-boundary property the specification asserts for the trimmed
transcript: it is the whole input, or it begins right after a newline. -/
def startsAtLineBoundary (text trimmed : List Char) : Prop :=
  trimmed = text ∨ ∃ pre, pre ++ trimmed = text ∧ pre.getLast? = some '\n'

/-- **C8 (amended)**: for every backend whose detokenization of a suffix of
the text's tokenization yields a suffix of the text (the round-trip
property the design assumes of the model backend), the trimmed transcript
is a suffix of the input — the most recent content, including the final
line's tail, is preserved.  The block-boundary half of the original claim
is dropped: the character-level fallbacks may cut inside a line. -/
theorem C8_trim_suffix (B : LlmBackend) (text : List Char)
    (hrt : ∀ toks keep out, B.tokenize text = some toks → keep <:+ toks →
      B.detokenize keep = some out → out <:+ text) :
    trimHistory B text <:+ text := by
  cases htok : B.tokenize text with
  | none =>
    simp only [trimHistory, htok]
    exact takeLast_suffix _ _
  | some tokens =>
    simp only [trimHistory, htok]
    by_cases hfit : tokens.length ≤ B.nCtx - 400
    · rw [if_pos hfit]
    · rw [if_neg hfit]
      cases hdet : B.detokenize (takeLast (B.nCtx - 400) tokens) with
      | some out =>
        simp only [hdet]
        exact hrt tokens _ out htok (takeLast_suffix _ _) hdet
      | none =>
        simp only [hdet]
        exact takeLast_suffix _ _

/-- Witness for C8 (amended) at a concrete backend and text. -/
theorem C8_trim_suffix_witness :
    trimHistory ⟨8192, fun _ => none, fun _ => none⟩ "abc".data <:+ "abc".data := by
  refine C8_trim_suffix _ _ ?_
  intro toks keep out htok h1 h2
  simp at htok

/-- **C8 counterexample**: with a backend whose tokenizer raises, a
13000-character single-line transcript (longer than the 12000-character
budget) is trimmed to its last 12000 characters: a strict suffix that
starts in the middle of the input's only line, severing it — not at a
block boundary as the claim states. -/
theorem C8_trim_counterexample :
    trimHistory ⟨8192, fun _ => none, fun _ => none⟩ (List.replicate 13000 'a')
      = List.replicate 12000 'a' ∧
    MAX_HISTORY_CHARS < (List.replicate 13000 'a').length ∧
    ¬ startsAtLineBoundary (List.replicate 13000 'a')
      (trimHistory ⟨8192, fun _ => none, fun _ => none⟩ (List.replicate 13000 'a')) := by
  have htrim : trimHistory ⟨8192, fun _ => none, fun _ => none⟩ (List.replicate 13000 'a')
      = List.replicate 12000 'a' := by
    show takeLast MAX_HISTORY_CHARS (List.replicate 13000 'a') = List.replicate 12000 'a'
    unfold takeLast MAX_HISTORY_CHARS
    rw [if_neg (by norm_num), List.length_replicate, List.drop_replicate]
  refine ⟨htrim, by rw [List.length_replicate]; norm_num [MAX_HISTORY_CHARS], ?_⟩
  rw [htrim]
  rintro (he | ⟨pre, happ, hlast⟩)
  · have h := congrArg List.length he
    rw [List.length_replicate, List.length_replicate] at h
    norm_num at h
  · have h13 : List.replicate 13000 'a'
        = List.replicate 1000 'a' ++ List.replicate 12000 'a' := by
      rw [← List.replicate_add]
    rw [h13] at happ
    have hpre : pre = List.replicate 1000 'a' :=
      List.append_cancel_right happ
    rw [hpre] at hlast
    rw [show List.replicate 1000 'a' = List.replicate 999 'a' ++ ['a'] from by
      rw [← List.replicate_succ']] at hlast
    rw [List.getLast?_concat] at hlast
    exact absurd hlast (by decide)

-- ═════════════════════ `rag.py`: the mini vector store ═════════════════════

/-- `rag.py` `_TOKEN_RE = [A-Za-z0-9']+` membership (letters, digits,
apostrophe — code point 39). -/
def isTokChar (c : Char) : Bool :=
  decide ((65 ≤ c.toNat ∧ c.toNat ≤ 90) ∨ (97 ≤ c.toNat ∧ c.toNat ≤ 122) ∨
          (48 ≤ c.toNat ∧ c.toNat ≤ 57) ∨ c.toNat = 39)

/-- Left-to-right scanner collecting the maximal runs of token characters
(`findall` of `_TOKEN_RE`); `acc` holds the current run reversed. -/
def tokRunsAux : List Char → List Char → List (List Char)
  | [], acc => if acc = [] then [] else [acc.reverse]
  | c :: r, acc =>
    if isTokChar c then tokRunsAux r (c :: acc)
    else if acc = [] then tokRunsAux r []
    else acc.reverse :: tokRunsAux r []

/-- `rag.py` `_tokens`: lower-cased maximal `[A-Za-z0-9']+` runs. -/
def pyTokens (text : List Char) : List String :=
  (tokRunsAux text []).map (fun r => String.mk (lowerList r))

/-- A python dict with string keys and float values (here exact reals),
as an insertion-ordered association list with distinct keys. -/
abbrev RMap := List (String × ℝ)

/-- Dict lookup with default `0.0` (also the behaviour of a `Counter`). -/
noncomputable def getD (m : RMap) (t : String) : ℝ :=
  ((m.find? (fun p => p.1 == t)).map Prod.snd).getD 0

/-- `Counter.update` for one key: increment, inserting at the end if new. -/
noncomputable def incKey (m : RMap) (t : String) : RMap :=
  if m.any (fun p => p.1 == t) then
    m.map (fun p => if p.1 == t then (p.1, p.2 + 1) else p)
  else m ++ [(t, 1)]

/-- `Counter.update` over a list of keys. -/
noncomputable def incKeys : RMap → List String → RMap
  | m, [] => m
  | m, t :: ts => incKeys (incKey m t) ts

/-- First-occurrence deduplication (the distinct keys of a python
`Counter`/`set` built from the list, in a canonical order — the order of
keys never influences the store's observable behaviour). -/
def firstDedupAux : List String → List String → List String
  | [], _ => []
  | t :: ts, seen =>
    if t ∈ seen then firstDedupAux ts seen
    else t :: firstDedupAux ts (t :: seen)

def firstDedup (l : List String) : List String := firstDedupAux l []

/-- `rag.py` `_tfidf_vector`: `{t: counts[t] * idf[t] for t in counts}`. -/
noncomputable def tfidfVector (toks : List String) (idf : RMap) : RMap :=
  (firstDedup toks).map (fun t => (t, (toks.count t : ℝ) * getD idf t))

/-- `rag.py` `_cosine` over exact reals. -/
noncomputable def cosine (a b : RMap) : ℝ :=
  if a.isEmpty || b.isEmpty then 0
  else
    let num := (a.map (fun p => p.2 * getD b p.1)).sum
    let den := Real.sqrt ((a.map (fun p => p.2 * p.2)).sum) *
               Real.sqrt ((b.map (fun p => p.2 * p.2)).sum)
    if den = 0 then 0 else num / den

/-- `rag.py` `MiniVectorStore` state: `docs` (url, token list, optional
TF-IDF vector), the `idf` counter (document frequencies until a
finalization overwrites them with log-weights), and the dirty flag. -/
structure MiniVectorStore where
  docs : List (String × List String × Option RMap)
  idf : RMap
  finalised : Bool

/-- `MiniVectorStore.__init__`. -/
def MiniVectorStore.empty : MiniVectorStore := ⟨[], [], false⟩

/-- `MiniVectorStore.add`. -/
noncomputable def MiniVectorStore.add (s : MiniVectorStore) (url : String)
    (text : List Char) : MiniVectorStore :=
  let toks := pyTokens text
  if toks = [] then s
  else
    { docs := s.docs ++ [(url, toks, none)],
      idf := incKeys s.idf (firstDedup toks),
      finalised := false }

/-- `MiniVectorStore._finalize`: `N = len(docs) or 1`; overwrite each `idf`
entry `v` with `log (N / (1 + v))` in place, then recompute every document
vector with the new table. -/
noncomputable def MiniVectorStore.finalize (s : MiniVectorStore) : MiniVectorStore :=
  let N : ℝ := (max s.docs.length 1 : ℕ)
  let idf2 := s.idf.map (fun p => (p.1, Real.log (N / (1 + p.2))))
  { docs := s.docs.map (fun d => (d.1, d.2.1, some (tfidfVector d.2.1 idf2))),
    idf := idf2,
    finalised := true }

/-- Python `sorted(·, key=score, reverse=True)`: a stable descending sort
(insertion from the right places an earlier element before a later one of
equal score, exactly as python's stable sort with `reverse=True`). -/
noncomputable def sortByScoreDesc (l : List (String × ℝ)) : List (String × ℝ) :=
  l.insertionSort (fun p q => q.2 ≤ p.2)

/-- `MiniVectorStore.similarity_search`; the finalization it may perform
mutates the store, so the updated store is returned alongside the hits. -/
noncomputable def MiniVectorStore.similaritySearch (s : MiniVectorStore)
    (q : List Char) (k : Nat) : List (String × ℝ) × MiniVectorStore :=
  let s2 := if ¬ s.docs.isEmpty ∧ s.finalised = false then s.finalize else s
  let qVec := tfidfVector (pyTokens q) s2.idf
  let scored := s2.docs.filterMap (fun d =>
    match d.2.2 with
    | some v => if v.isEmpty then none else some (d.1, cosine v qVec)
    | none => none)
  ((sortByScoreDesc scored).take k, s2)

-- ───────────── C2: the IDF table across two finalizations ─────────────

/-- `add("u1", "hello")` on a fresh store. -/
noncomputable def c2Store0 : MiniVectorStore :=
  MiniVectorStore.empty.add "u1" "hello".data

/-- … then `similarity_search("hello")` (first finalization). -/
noncomputable def c2Store1 : MiniVectorStore :=
  (c2Store0.similaritySearch "hello".data 5).2

/-- … then `add("u2", "hello")`. -/
noncomputable def c2Store2 : MiniVectorStore :=
  c2Store1.add "u2" "hello".data

/-- … then `similarity_search("hello")` again (second finalization). -/
noncomputable def c2Store3 : MiniVectorStore :=
  (c2Store2.similaritySearch "hello".data 5).2

lemma c2_store0_eq :
    c2Store0 = ⟨[("u1", ["hello"], none)], [("hello", 1)], false⟩ := by
  unfold c2Store0 MiniVectorStore.add MiniVectorStore.empty
  rw [show pyTokens "hello".data = ["hello"] from by decide]
  simp [incKeys, incKey, firstDedup, firstDedupAux]

lemma c2_store1_eq :
    c2Store1 = ⟨[("u1", ["hello"],
        some (tfidfVector ["hello"] [("hello", -Real.log 2)]))],
      [("hello", -Real.log 2)], true⟩ := by
  unfold c2Store1
  rw [c2_store0_eq]
  unfold MiniVectorStore.similaritySearch MiniVectorStore.finalize
  norm_num

lemma c2_store2_eq :
    c2Store2 = ⟨[("u1", ["hello"],
        some (tfidfVector ["hello"] [("hello", -Real.log 2)])),
        ("u2", ["hello"], none)],
      [("hello", -Real.log 2 + 1)], false⟩ := by
  unfold c2Store2
  rw [c2_store1_eq]
  unfold MiniVectorStore.add
  rw [show pyTokens "hello".data = ["hello"] from by decide]
  simp [incKeys, incKey, firstDedup, firstDedupAux]

lemma c2_idf3 :
    c2Store3.idf = [("hello", Real.log ((2 - Real.log 2)⁻¹ * 2))] := by
  unfold c2Store3
  rw [c2_store2_eq]
  unfold MiniVectorStore.similaritySearch MiniVectorStore.finalize
  norm_num
  have h : (1 : ℝ) + (-Real.log 2 + 1) = 2 - Real.log 2 := by ring
  rw [h, div_eq_mul_inv, mul_comm]

lemma c2_value : getD c2Store3.idf "hello" = Real.log (2 / (2 - Real.log 2)) := by
  rw [c2_idf3]
  unfold getD
  rw [List.find?_cons_of_pos _ (by simp)]
  simp only [Option.map_some', Option.getD_some]
  congr 1
  rw [div_eq_mul_inv, mul_comm]

/-- **C2**: the code violates the claimed IDF invariant at the second
finalization.  After `add("u1","hello")`, a query, `add("u2","hello")` and
a second query, the store holds `N = 2` documents each containing `hello`,
so the claim requires `idf("hello") = ln (N / (1 + df)) = ln (2 / 3) < 0`;
the code instead reapplies the log to the already-transformed table and
stores `ln (2 / (2 - ln 2)) > 0`.  (`_finalize` overwrites the
document-frequency counter in place, so a second finalization reads
log-weights where `add` wrote counts.) -/
theorem C2_idf_code_bug :
    getD c2Store3.idf "hello" = Real.log (2 / (2 - Real.log 2)) ∧
    getD c2Store3.idf "hello" ≠ Real.log (2 / (1 + 2)) := by
  refine ⟨c2_value, ?_⟩
  rw [c2_value]
  have h1 : Real.log 2 < 1 := by
    have := Real.log_lt_sub_one_of_pos (by norm_num : (0:ℝ) < 2) (by norm_num)
    linarith
  have hpos : 0 < Real.log 2 := Real.log_pos one_lt_two
  have hlhs : 0 < Real.log (2 / (2 - Real.log 2)) := by
    apply Real.log_pos
    rw [lt_div_iff₀ (by linarith)]
    linarith
  have hrhs : Real.log (2 / (1 + 2)) < 0 :=
    Real.log_neg (by norm_num) (by norm_num)
  intro he
  rw [he] at hlhs
  linarith

-- ───────────── C4: duplicate insertion is not idempotent ─────────────

lemma firstDedup_ne_nil {toks : List String} (h : toks ≠ []) : firstDedup toks ≠ [] := by
  cases toks with
  | nil => exact absurd rfl h
  | cons t ts =>
    unfold firstDedup firstDedupAux
    simp

lemma tfidf_isEmpty_false {toks : List String} (h : firstDedup toks ≠ []) (idf : RMap) :
    (tfidfVector toks idf).isEmpty = false := by
  unfold tfidfVector
  simp [List.isEmpty_iff, h]

/-- `similarity_search` on a fresh store holding the same document twice
(`add` of the same `(id, text)` run twice): both copies are scored, with
the same cosine score, and with `k ≥ 2` both appear in the result. -/
lemma search_double (u : String) (toks : List String) (idf : RMap) (q : List Char)
    (k : Nat) (hne : firstDedup toks ≠ []) (hk : 2 ≤ k) :
    ∃ c : ℝ,
      ((MiniVectorStore.mk [(u, toks, none), (u, toks, none)] idf false).similaritySearch
        q k).1 = [(u, c), (u, c)] := by
  refine ⟨cosine (tfidfVector toks
      (idf.map (fun p => (p.1, Real.log ((((max 2 1 : ℕ) : ℝ)) / (1 + p.2))))))
      (tfidfVector (pyTokens q)
        (idf.map (fun p => (p.1, Real.log ((((max 2 1 : ℕ) : ℝ)) / (1 + p.2)))))), ?_⟩
  unfold MiniVectorStore.similaritySearch MiniVectorStore.finalize
  simp only [List.isEmpty_cons, Bool.false_eq_true, not_false_iff, true_and,
    List.length_cons, List.length_nil]
  rw [if_pos (by simp)]
  simp only [List.map_cons, List.map_nil, List.filterMap_cons, List.filterMap_nil]
  rw [tfidf_isEmpty_false hne]
  simp only [Bool.false_eq_true, if_false]
  unfold sortByScoreDesc
  simp only [List.insertionSort, List.orderedInsert, le_refl, if_true]
  rw [List.take_of_length_le (by simpa using hk)]

/-- `similarity_search` on a fresh store holding one document. -/
lemma search_single (u : String) (toks : List String) (idf : RMap) (q : List Char)
    (k : Nat) (hne : firstDedup toks ≠ []) (hk : 1 ≤ k) :
    ∃ c : ℝ,
      ((MiniVectorStore.mk [(u, toks, none)] idf false).similaritySearch q k).1
        = [(u, c)] := by
  refine ⟨cosine (tfidfVector toks
      (idf.map (fun p => (p.1, Real.log ((((max 1 1 : ℕ) : ℝ)) / (1 + p.2))))))
      (tfidfVector (pyTokens q)
        (idf.map (fun p => (p.1, Real.log ((((max 1 1 : ℕ) : ℝ)) / (1 + p.2)))))), ?_⟩
  unfold MiniVectorStore.similaritySearch MiniVectorStore.finalize
  simp only [List.isEmpty_cons, Bool.false_eq_true, not_false_iff, true_and,
    List.length_cons, List.length_nil]
  rw [if_pos (by simp)]
  simp only [List.map_cons, List.map_nil, List.filterMap_cons, List.filterMap_nil]
  rw [tfidf_isEmpty_false hne]
  simp only [Bool.false_eq_true, if_false]
  unfold sortByScoreDesc
  simp only [List.insertionSort, List.orderedInsert]
  rw [List.take_of_length_le (by simpa using hk)]

lemma add_once_eq (id : String) (text : List Char) (ht : pyTokens text ≠ []) :
    MiniVectorStore.empty.add id text
      = MiniVectorStore.mk [(id, pyTokens text, none)]
          (incKeys [] (firstDedup (pyTokens text))) false := by
  unfold MiniVectorStore.add MiniVectorStore.empty
  simp [ht]

lemma add_twice_eq (id : String) (text : List Char) (ht : pyTokens text ≠ []) :
    (MiniVectorStore.empty.add id text).add id text
      = MiniVectorStore.mk [(id, pyTokens text, none), (id, pyTokens text, none)]
          (incKeys (incKeys [] (firstDedup (pyTokens text))) (firstDedup (pyTokens text)))
          false := by
  rw [add_once_eq id text ht]
  unfold MiniVectorStore.add
  simp [ht]

/-- **C4 (amended)**: inserting the same `(id, text)` twice into a fresh
store is not idempotent: the document is stored twice, and every query
with `k ≥ 2` returns the id twice — both copies with one and the same
score — whereas a single insertion returns it once. -/
theorem C4_duplicate_insert_amended (id : String) (text q : List Char) (k : Nat)
    (ht : pyTokens text ≠ []) (hk : 2 ≤ k) :
    ∃ c c2 : ℝ,
      (((MiniVectorStore.empty.add id text).add id text).similaritySearch q k).1
        = [(id, c), (id, c)] ∧
      ((MiniVectorStore.empty.add id text).similaritySearch q k).1 = [(id, c2)] := by
  obtain ⟨c, hc⟩ :=
    search_double id (pyTokens text) _ q k (firstDedup_ne_nil ht) hk
  obtain ⟨c2, hc2⟩ :=
    search_single id (pyTokens text) _ q k (firstDedup_ne_nil ht) (by omega)
  exact ⟨c, c2, by rw [add_twice_eq id text ht]; exact hc,
         by rw [add_once_eq id text ht]; exact hc2⟩

/-- Witness for C4 (amended) at concrete inputs. -/
theorem C4_duplicate_insert_amended_witness :
    ∃ c c2 : ℝ,
      (((MiniVectorStore.empty.add "u" "hello world".data).add
          "u" "hello world".data).similaritySearch "hello".data 5).1
        = [("u", c), ("u", c)] ∧
      ((MiniVectorStore.empty.add "u" "hello world".data).similaritySearch
          "hello".data 5).1 = [("u", c2)] :=
  C4_duplicate_insert_amended "u" "hello world".data "hello".data 5
    (by decide) (by omega)

/-- **C4 counterexample**: inserting `("u", "hello world")` twice into a
fresh store and querying `"hello"` with the code's default `k = 5` yields
two hits (the duplicate is scored twice), while inserting once yields one:
the top-k ordering differs, refuting the claimed idempotence. -/
theorem C4_duplicate_insert_counterexample :
    (((MiniVectorStore.empty.add "u" "hello world".data).add
        "u" "hello world".data).similaritySearch "hello".data 5).1
      ≠ ((MiniVectorStore.empty.add "u" "hello world".data).similaritySearch
          "hello".data 5).1 := by
  have ht : pyTokens "hello world".data ≠ [] := by decide
  obtain ⟨c, hc⟩ :=
    search_double "u" (pyTokens "hello world".data) _ "hello".data 5
      (firstDedup_ne_nil ht) (by omega)
  obtain ⟨c2, hc2⟩ :=
    search_single "u" (pyTokens "hello world".data) _ "hello".data 5
      (firstDedup_ne_nil ht) (by omega)
  rw [add_twice_eq "u" "hello world".data ht, add_once_eq "u" "hello world".data ht,
    hc, hc2]
  intro he
  have hl := congrArg List.length he
  simp at hl

-- ───────────── C9: cosine similarity properties ─────────────

lemma getD_eq_of_mem : ∀ {a : RMap}, (a.map Prod.fst).Nodup →
    ∀ {p : String × ℝ}, p ∈ a → getD a p.1 = p.2 := by
  intro a
  induction a with
  | nil => intro _ p hp; simp at hp
  | cons q rest ih =>
    intro hnd p hp
    simp only [List.map_cons, List.nodup_cons] at hnd
    rcases List.mem_cons.1 hp with rfl | hmem
    · unfold getD
      rw [List.find?_cons_of_pos _ (by simp)]
      rfl
    · by_cases hq : q.1 = p.1
      · exact absurd (hq ▸ List.mem_map_of_mem Prod.fst hmem) hnd.1
      · have hstep : getD (q :: rest) p.1 = getD rest p.1 := by
          unfold getD
          rw [List.find?_cons_of_neg _ (by simpa using hq)]
        rw [hstep]
        exact ih hnd.2 hmem

lemma getD_eq_zero_of_not_mem {b : RMap} {t : String} (ht : t ∉ b.map Prod.fst) :
    getD b t = 0 := by
  unfold getD
  rw [List.find?_eq_none.2 ?_]
  · rfl
  · intro x hx
    simp only [beq_iff_eq]
    intro hxe
    exact ht (hxe ▸ List.mem_map_of_mem Prod.fst hx)

lemma getD_nonneg {a : RMap} (hpos : ∀ p ∈ a, 0 ≤ p.2) (t : String) : 0 ≤ getD a t := by
  unfold getD
  cases hf : a.find? (fun p => p.1 == t) with
  | none => simp
  | some p =>
    simp only [Option.map_some', Option.getD_some]
    exact hpos p (List.mem_of_find?_eq_some hf)

lemma sum_entries_eq_finset {a : RMap} (ha : (a.map Prod.fst).Nodup)
    (g : String → ℝ → ℝ) :
    (a.map (fun p => g p.1 p.2)).sum
      = ∑ t ∈ (a.map Prod.fst).toFinset, g t (getD a t) := by
  rw [List.sum_toFinset _ ha, List.map_map]
  apply congrArg
  apply List.map_congr_left
  intro p hp
  simp [getD_eq_of_mem ha hp]

lemma sum_entries_union {a : RMap} (ha : (a.map Prod.fst).Nodup)
    (U : Finset String) (hsub : (a.map Prod.fst).toFinset ⊆ U)
    (g : String → ℝ → ℝ) (hz : ∀ t, g t 0 = 0) :
    (a.map (fun p => g p.1 p.2)).sum = ∑ t ∈ U, g t (getD a t) := by
  rw [sum_entries_eq_finset ha g]
  apply Finset.sum_subset hsub
  intro t _ htKa
  rw [getD_eq_zero_of_not_mem (by simpa [List.mem_toFinset] using htKa), hz]

/-- **C9**: cosine similarity (on dict-shaped sparse vectors, i.e. with
distinct keys) is symmetric; it lies in `[0, 1]` when all weights are
non-negative; it is exactly `0` when either vector is empty or either norm
is zero — no division by zero can occur; and a similarity query against an
empty corpus returns the empty hit list (no match with positive score) for
every query and every `k`. -/
theorem C9_cosine_properties (a b : RMap) (q : List Char) (k : Nat)
    (ha : (a.map Prod.fst).Nodup) (hb : (b.map Prod.fst).Nodup) :
    cosine a b = cosine b a ∧
    ((∀ p ∈ a, 0 ≤ p.2) → (∀ p ∈ b, 0 ≤ p.2) →
      0 ≤ cosine a b ∧ cosine a b ≤ 1) ∧
    (a = [] ∨ b = [] ∨ Real.sqrt ((a.map (fun p => p.2 * p.2)).sum) = 0 ∨
      Real.sqrt ((b.map (fun p => p.2 * p.2)).sum) = 0 → cosine a b = 0) ∧
    (MiniVectorStore.empty.similaritySearch q k).1 = [] := by
  have hUa : (a.map Prod.fst).toFinset ⊆
      (a.map Prod.fst).toFinset ∪ (b.map Prod.fst).toFinset := Finset.subset_union_left
  have hUb : (b.map Prod.fst).toFinset ⊆
      (a.map Prod.fst).toFinset ∪ (b.map Prod.fst).toFinset := Finset.subset_union_right
  have hnumA : (a.map (fun p => p.2 * getD b p.1)).sum
      = ∑ t ∈ (a.map Prod.fst).toFinset ∪ (b.map Prod.fst).toFinset,
          getD a t * getD b t := by
    exact sum_entries_union ha _ hUa (fun t v => v * getD b t) (fun t => zero_mul _)
  have hnumB : (b.map (fun p => p.2 * getD a p.1)).sum
      = ∑ t ∈ (a.map Prod.fst).toFinset ∪ (b.map Prod.fst).toFinset,
          getD b t * getD a t := by
    rw [sum_entries_union hb _ hUb (fun t v => v * getD a t) (fun t => zero_mul _),
      Finset.union_comm]
  have hsqA : (a.map (fun p => p.2 * p.2)).sum
      = ∑ t ∈ (a.map Prod.fst).toFinset ∪ (b.map Prod.fst).toFinset,
          getD a t * getD a t :=
    sum_entries_union ha _ hUa (fun t v => v * v) (fun t => zero_mul _)
  have hsqB : (b.map (fun p => p.2 * p.2)).sum
      = ∑ t ∈ (a.map Prod.fst).toFinset ∪ (b.map Prod.fst).toFinset,
          getD b t * getD b t := by
    rw [sum_entries_union hb _ hUb (fun t v => v * v) (fun t => zero_mul _),
      Finset.union_comm]
  refine ⟨?_, ?_, ?_, ?_⟩
  · -- symmetry
    by_cases hae : a.isEmpty <;> by_cases hbe : b.isEmpty
    · simp [cosine, hae, hbe]
    · simp [cosine, hae, hbe]
    · simp [cosine, hae, hbe]
    · simp only [cosine, hae, hbe, Bool.or_false, Bool.false_or, Bool.false_eq_true,
        if_false]
      rw [hnumA, hnumB, mul_comm (Real.sqrt ((b.map (fun p => p.2 * p.2)).sum))]
      congr 2
      exact Finset.sum_congr rfl (fun t _ => mul_comm _ _)
  · -- bounds
    intro hpa hpb
    by_cases hae : a.isEmpty
    · simp [cosine, hae]
    by_cases hbe : b.isEmpty
    · simp [cosine, hae, hbe]
    simp only [cosine, hae, hbe, Bool.or_false, Bool.false_eq_true, if_false]
    set den := Real.sqrt ((a.map (fun p => p.2 * p.2)).sum) *
      Real.sqrt ((b.map (fun p => p.2 * p.2)).sum) with hden
    by_cases hd0 : den = 0
    · simp [hd0]
    · rw [if_neg hd0]
      have hdenpos : 0 < den := lt_of_le_of_ne
        (mul_nonneg (Real.sqrt_nonneg _) (Real.sqrt_nonneg _)) (Ne.symm hd0)
      have hnum0 : 0 ≤ (a.map (fun p => p.2 * getD b p.1)).sum := by
        rw [hnumA]
        exact Finset.sum_nonneg fun t _ =>
          mul_nonneg (getD_nonneg hpa t) (getD_nonneg hpb t)
      refine ⟨div_nonneg hnum0 (le_of_lt hdenpos), ?_⟩
      rw [div_le_one hdenpos]
      have hCS := Finset.sum_mul_sq_le_sq_mul_sq
        ((a.map Prod.fst).toFinset ∪ (b.map Prod.fst).toFinset)
        (fun t => getD a t) (fun t => getD b t)
      have hden2 : den
          = Real.sqrt (∑ t ∈ (a.map Prod.fst).toFinset ∪ (b.map Prod.fst).toFinset,
              getD a t ^ 2) *
            Real.sqrt (∑ t ∈ (a.map Prod.fst).toFinset ∪ (b.map Prod.fst).toFinset,
              getD b t ^ 2) := by
        rw [hden, hsqA, hsqB]
        congr 2 <;> exact Finset.sum_congr rfl (fun t _ => (pow_two _).symm)
      calc (a.map (fun p => p.2 * getD b p.1)).sum
          = ∑ t ∈ (a.map Prod.fst).toFinset ∪ (b.map Prod.fst).toFinset,
              getD a t * getD b t := hnumA
        _ ≤ Real.sqrt ((∑ t ∈ (a.map Prod.fst).toFinset ∪ (b.map Prod.fst).toFinset,
              getD a t ^ 2) *
            (∑ t ∈ (a.map Prod.fst).toFinset ∪ (b.map Prod.fst).toFinset,
              getD b t ^ 2)) := Real.le_sqrt_of_sq_le hCS
        _ = Real.sqrt (∑ t ∈ (a.map Prod.fst).toFinset ∪ (b.map Prod.fst).toFinset,
              getD a t ^ 2) *
            Real.sqrt (∑ t ∈ (a.map Prod.fst).toFinset ∪ (b.map Prod.fst).toFinset,
              getD b t ^ 2) :=
            Real.sqrt_mul (Finset.sum_nonneg fun t _ => sq_nonneg _) _
        _ = den := hden2.symm
  · -- zero cases
    rintro (rfl | rfl | hza | hzb)
    · simp [cosine]
    · simp [cosine]
    · by_cases hae : a.isEmpty
      · simp [cosine, hae]
      by_cases hbe : b.isEmpty
      · simp [cosine, hae, hbe]
      simp only [cosine, hae, hbe, Bool.or_false, Bool.false_eq_true, if_false]
      rw [hza, zero_mul]
      simp
    · by_cases hae : a.isEmpty
      · simp [cosine, hae]
      by_cases hbe : b.isEmpty
      · simp [cosine, hae, hbe]
      simp only [cosine, hae, hbe, Bool.or_false, Bool.false_eq_true, if_false]
      rw [hzb, mul_zero]
      simp
  · -- empty corpus
    unfold MiniVectorStore.similaritySearch MiniVectorStore.empty
    simp [sortByScoreDesc]

/-- Witness for C9 at concrete vectors and query. -/
theorem C9_cosine_properties_witness :
    cosine [("x", (1:ℝ)), ("y", 2)] [("x", 3)]
        = cosine [("x", (3:ℝ))] [("x", 1), ("y", 2)] ∧
    ((∀ p ∈ [("x", (1:ℝ)), ("y", 2)], 0 ≤ p.2) → (∀ p ∈ [("x", (3:ℝ))], 0 ≤ p.2) →
      0 ≤ cosine [("x", (1:ℝ)), ("y", 2)] [("x", 3)] ∧
      cosine [("x", (1:ℝ)), ("y", 2)] [("x", 3)] ≤ 1) ∧
    ([("x", (1:ℝ)), ("y", 2)] = ([] : RMap) ∨ [("x", (3:ℝ))] = ([] : RMap) ∨
      Real.sqrt (([("x", (1:ℝ)), ("y", 2)].map (fun p => p.2 * p.2)).sum) = 0 ∨
      Real.sqrt (([("x", (3:ℝ))].map (fun p => p.2 * p.2)).sum) = 0 →
      cosine [("x", (1:ℝ)), ("y", 2)] [("x", 3)] = 0) ∧
    (MiniVectorStore.empty.similaritySearch "z".data 5).1 = [] :=
  C9_cosine_properties [("x", 1), ("y", 2)] [("x", 3)] "z".data 5
    (by decide) (by decide)

-- ═════════════════ `memory.py`: session memory ═════════════════

/-- The collaborators `memory.py` calls out to: the page fetcher
(`fetcher.fetch_page`; `none` is a fetch failure after retries), the
HTML-to-text extractor (`parser.parse_html`) and the query-relevant
snippet extractor (`parser.extract_relevant_snippets`). -/
structure WebEnv where
  fetchPage : String → Option (List Char)
  parseHtml : List Char → List Char
  extractSnippets : List Char → List Char → List Char

/-- `memory.py` `Memory`. -/
structure Memory where
  cache : List (String × List Char)
  vstore : MiniVectorStore
  researchLog : List (List Char)
  sources : List (String × List Char)
  lastOpenedUrl : Option String
  lastPageText : Option (List Char)

/-- `Memory.__init__`. -/
def Memory.empty : Memory := ⟨[], MiniVectorStore.empty, [], [], none, none⟩

/-- Python dict `get` on the url cache. -/
def lookup (m : List (String × List Char)) (u : String) : Option (List Char) :=
  (m.find? (fun p => p.1 == u)).map Prod.snd

/-- Python dict assignment: overwrite in place, or append if the key is new. -/
def setKey (m : List (String × List Char)) (u : String) (v : List Char) :
    List (String × List Char) :=
  if m.any (fun p => p.1 == u) then
    m.map (fun p => if p.1 == u then (p.1, v) else p)
  else m ++ [(u, v)]

/-- `Memory.add_source`: append `(url, snippet[:200])` to the evidence. -/
def Memory.addSource (mem : Memory) (url : String) (snippet : List Char) : Memory :=
  { mem with sources := mem.sources ++ [(url, snippet.take 200)] }

/-- `Memory.log_step`. -/
def Memory.logStep (mem : Memory) (msg : List Char) : Memory :=
  { mem with researchLog := mem.researchLog ++ [msg] }

/-- `Memory.add_web_content`: cache the raw HTML; push the extracted plain
text into the vector store when it is non-empty. -/
noncomputable def Memory.addWebContent (E : WebEnv) (mem : Memory) (url : String)
    (html : List Char) : Memory :=
  let mem1 := { mem with cache := setKey mem.cache url html }
  let text := E.parseHtml html
  if text = [] then mem1
  else { mem1 with vstore := mem1.vstore.add url text }

/-- `Memory.open_or_fetch`: return the snippet and the updated memory.
The failure string is `"⚠️ Failed to fetch {url}"`. -/
noncomputable def Memory.openOrFetch (E : WebEnv) (mem : Memory) (url : String)
    (query : Option (List Char)) (autoSnippet : Bool) : List Char × Memory :=
  let cached := lookup mem.cache url
  let fetched : Option (List Char) :=
    match cached with
    | some h => some h
    | none => E.fetchPage url
  let mem1 :=
    match cached, E.fetchPage url with
    | none, some h => if h ≠ [] then mem.addWebContent E url h else mem
    | _, _ => mem
  match fetched with
  | none => ("⚠️ Failed to fetch ".data ++ url.data, mem1)
  | some h =>
    if h = [] then ("⚠️ Failed to fetch ".data ++ url.data, mem1)
    else
      let text := E.parseHtml h
      let mem2 := { mem1 with lastOpenedUrl := some url, lastPageText := some text }
      let snippet :=
        if query.getD [] ≠ [] ∧ autoSnippet = true then
          let es := E.extractSnippets text (query.getD [])
          if es = [] then text.take 400 else es
        else text.take 400
      (snippet, mem2.addSource url snippet)

lemma addWebContent_sources (E : WebEnv) (mem : Memory) (url : String)
    (html : List Char) : (mem.addWebContent E url html).sources = mem.sources := by
  unfold Memory.addWebContent
  by_cases h : E.parseHtml html = [] <;> simp [h]

/-- **C10**: every successful `open_or_fetch` — the page is cached with
non-empty content, or the fetch succeeds — appends exactly one evidence
record `(url, snippet[:200])` to the session's sources; this includes
repeat opens of an already-cached URL (and the opens the Recall handler
performs, which go through this same function), so the evidence list can
hold the same URL several times — the concrete double-open run of the
second conjunct shows it — and its length can exceed the number of
distinct URLs ever opened. -/
theorem C10_open_or_fetch_appends (E : WebEnv) (mem : Memory) (url : String)
    (query : Option (List Char)) (auto : Bool)
    (hsucc : (∃ h, lookup mem.cache url = some h ∧ h ≠ []) ∨
      (lookup mem.cache url = none ∧ ∃ h, E.fetchPage url = some h ∧ h ≠ [])) :
    (Memory.openOrFetch E mem url query auto).2.sources
      = mem.sources
        ++ [(url, ((Memory.openOrFetch E mem url query auto).1).take 200)] ∧
    ((Memory.openOrFetch
        (WebEnv.mk (fun _ => some "x".data) (fun _ => []) (fun _ _ => []))
        ((Memory.openOrFetch
          (WebEnv.mk (fun _ => some "x".data) (fun _ => []) (fun _ _ => []))
          Memory.empty "u" none true).2) "u" none true).2).sources.map Prod.fst
      = ["u", "u"] := by
  constructor
  · rcases hsucc with ⟨h, hc, hne⟩ | ⟨hc, h, hf, hne⟩
    · simp only [Memory.openOrFetch, hc]
      simp [hne, Memory.addSource]
    · simp only [Memory.openOrFetch, hc, hf]
      simp [hne, Memory.addSource, addWebContent_sources]
  · decide

/-- Witness for C10 at a concrete environment and session. -/
theorem C10_open_or_fetch_appends_witness :
    (Memory.openOrFetch
        (WebEnv.mk (fun _ => some "x".data) (fun _ => []) (fun _ _ => []))
        Memory.empty "u" none true).2.sources
      = Memory.empty.sources
        ++ [("u", ((Memory.openOrFetch
            (WebEnv.mk (fun _ => some "x".data) (fun _ => []) (fun _ _ => []))
            Memory.empty "u" none true).1).take 200)] ∧
    ((Memory.openOrFetch
        (WebEnv.mk (fun _ => some "x".data) (fun _ => []) (fun _ _ => []))
        ((Memory.openOrFetch
          (WebEnv.mk (fun _ => some "x".data) (fun _ => []) (fun _ _ => []))
          Memory.empty "u" none true).2) "u" none true).2).sources.map Prod.fst
      = ["u", "u"] :=
  C10_open_or_fetch_appends
    (WebEnv.mk (fun _ => some "x".data) (fun _ => []) (fun _ _ => []))
    Memory.empty "u" none true
    (Or.inr ⟨rfl, "x".data, rfl, by decide⟩)

-- ═════════════════ `agent.py`: the turn loop ═════════════════

/-- `"sep".join(xs)`. -/
def joinSep (sep : List Char) : List (List Char) → List Char
  | [] => []
  | [x] => x
  | x :: xs => x ++ sep ++ joinSep sep xs

/-- `agent.py` `_build_system_prompt` (the `textwrap.dedent` f-string with
the tunables `ACTION_LIMIT = 4`, `MIN_SUPPORT_SOURCES = 1`,
`ACTIONS_PER_TURN = 4` interpolated). -/
def buildSystemPrompt (q : List Char) : List Char :=
  "You are an AI web-research agent.\n\nTools you can call (multiple per turn):\n  • Action: Search(\"query\")   – search the web\n  • Action: Open(\"url\")       – open a URL\n  • Action: Find(\"keyword\")   – keyword search in the open page\n  • Action: Crawl(\"site\")     – crawl that site; add pages to memory\n  • Action: Recall(\"query\")   – retrieve pages similar to query\n  • Action: Done!             – when you have enough evidence\n\nOutput every turn (exactly one Thought then ≤4 Action lines):\n  Thought: <multi-sentence reasoning>\n  Action:  <tool call>\n  …\n\nRules:\n  0-a. First turn MUST be Action: Search(\"query\") (paraphrase allowed).\n 0-b. After each Search, review the results and then use\n       Action: Open(\"url\") on the following turn.\n 1. Gather evidence from ≥1 distinct URLs.\n 2. The agent may execute up to **4** Actions per turn.\n    After each Action you will see an Observation before deciding what\n    to do next.\n 3. NEVER fabricate information; rely only on opened pages.\n 4. If evidence is insufficient, admit it instead of guessing.\n\nUser question: \"".data
    ++ q ++ "\"\nBegin.\n".data

/-- Numbered source lines `[i+1] url — snippet` of `_summarise`. -/
def srcLines : Nat → List (String × List Char) → List (List Char)
  | _, [] => []
  | i, (u, s) :: rest =>
    ("[".data ++ (Nat.repr (i + 1)).data ++ "] ".data ++ u.data ++ " — ".data ++ s)
      :: srcLines (i + 1) rest

/-- All collaborators `run_research_agent` reaches: the model backend's
token stream for a prompt, the tokenizing backend used by the trimmer, the
web-search backend (the formatted observation `search_web` returns), the
site crawler, the page collaborators of `memory.py`, the long-generation
model call used by `_summarise`, and the `"{:.2f}"` float formatter
(exact float formatting is outside the model). -/
structure Tools where
  stream : List Char → List StreamItem
  backend : LlmBackend
  searchWeb : List Char → List Char
  crawlSite : List Char → List (String × List Char)
  web : WebEnv
  llmLong : List Char → List Char
  fmtScore : ℝ → List Char

/-- `agent.py` `_summarise`. -/
def summarise (T : Tools) (q : List Char) (sources : List (String × List Char)) :
    List Char :=
  T.llmLong
    ("Write a concise answer (3–6 bullet points or a short paragraph).\nQuestion:\n".data
      ++ q ++ "\n\nSources:\n".data ++ joinSep "\n".data (srcLines 0 sources)
      ++ "\n\nAnswer:".data)

/-- `nee.isPrefixOf (hay.drop i)`: occurrence of `nee` at index `i`. -/
def isSubAt (hay nee : List Char) (i : Nat) : Bool :=
  nee.isPrefixOf (hay.drop i)

/-- Python `str.find(nee, start)` as an option. -/
def findFrom (hay nee : List Char) (start : Nat) : Option Nat :=
  ((List.range (hay.length + 1)).filter
    (fun i => decide (start ≤ i) && isSubAt hay nee i)).head?

/-- The scanning loop of `agent.py` `_find_chunks` (context 120, up to
3 hits), structured on the remaining hit budget. -/
def findChunksGo (text lowered neeL : List Char) : Nat → Nat → List (List Char)
  | 0, _ => []
  | mh + 1, pos =>
    match findFrom lowered neeL pos with
    | none => []
    | some idx =>
      let start := idx - 120
      let stop := min text.length (idx + neeL.length + 120)
      pyStrip ((text.drop start).take (stop - start))
        :: findChunksGo text lowered neeL mh (idx + neeL.length)

/-- `agent.py` `_find_chunks`. -/
def findChunks (text nee : List Char) : List (List Char) :=
  findChunksGo text (lowerList text) (lowerList nee) 3 0

/-- The `[Recall]` loop body: open each hit for a snippet, log it, and
collect the observation fragments. -/
noncomputable def recallFold (T : Tools) (arg : String) :
    List (String × ℝ) → Memory → List (List Char) × Memory
  | [], m => ([], m)
  | (url, score) :: rest, m =>
    let r := m.openOrFetch T.web url (some arg.data) true
    let m2 := r.2.logStep ("[Recall] ".data ++ url.data ++ " (".data
      ++ T.fmtScore score ++ ")\n".data ++ r.1.take 160 ++ "…".data)
    let rec2 := recallFold T arg rest m2
    (("[".data ++ T.fmtScore score ++ "] ".data ++ url.data ++ "\n".data
      ++ r.1.take 160 ++ "…".data) :: rec2.1, rec2.2)

/-- The dispatch of one selected action in `run_research_agent`: either the
final answer (an honored `Done`) or the observation string plus the updated
session memory. -/
noncomputable def dispatch (T : Tools) (q : List Char) (mem : Memory)
    (act arg : String) : List Char ⊕ (List Char × Memory) :=
  if act = "search" then .inr (T.searchWeb arg.data, mem)
  else if act = "open" then
    let r := mem.openOrFetch T.web arg (some q) true
    let logMsg := "[Open] ".data ++ arg.data ++ "\n".data ++ r.1.take 160 ++ "…".data
    .inr (logMsg, r.2.logStep logMsg)
  else if act = "find" then
    match mem.lastPageText with
    | none => .inr ("Nothing open—use Open(url) first.".data, mem)
    | some text =>
      let hits := findChunks text arg.data
      .inr (if hits.isEmpty then "No occurrences of “".data ++ arg.data ++ "”.".data
            else joinSep "…\n".data hits, mem)
  else if act = "crawl" then
    let pages := T.crawlSite arg.data
    let mem1 := pages.foldl (fun m p => m.addWebContent T.web p.1 p.2) mem
    .inr ("Crawled ".data ++ (Nat.repr pages.length).data ++ " pages from ".data
      ++ arg.data, mem1)
  else if act = "recall" then
    let r := mem.vstore.similaritySearch arg.data 5
    let mem1 := { mem with vstore := r.2 }
    if r.1.isEmpty then .inr ("No relevant docs yet – crawl first?".data, mem1)
    else
      let rec2 := recallFold T arg r.1 mem1
      .inr (joinSep "\n\n".data rec2.1, rec2.2)
  else if act = "done" then
    if mem.sources.length < MIN_SUPPORT_SOURCES then
      .inr ("Only ".data ++ (Nat.repr mem.sources.length).data
        ++ " source(s); need ".data ++ (Nat.repr MIN_SUPPORT_SOURCES).data ++ ".".data,
        mem)
    else .inl (summarise T q mem.sources)
  else
    let warn := "Unknown action “".data ++ act.data ++ "”.".data
    .inr (warn, mem.logStep warn)

/-- The mutable state of `run_research_agent`: the question, the rolling
transcript, the session memory, the outer loop counter, the per-turn action
counter, the last executed action (python's `action` variable), and whether
control is inside the inner per-turn `while`. -/
structure AgentState where
  q : List Char
  hist : List Char
  mem : Memory
  loop : Nat
  actionsRun : Nat
  lastAction : Option String
  inTurn : Bool

/-- The two ways `run_research_agent` returns: the final answer printed by
an honored `Done`, or the `MAX LOOPS REACHED` path with its best-effort
summary. -/
inductive AgentFinal
  | answered (ans : List Char)
  | exhausted (ans : List Char)

/-- One small step of `run_research_agent`'s control flow.  Outside a turn
it models the top of the outer `while` together with the trailing
`if action == "done": break`; inside a turn it models one iteration of the
inner `while` (a format-retry, or the execution of the first parsed
action). -/
noncomputable def agentStep (T : Tools) (s : AgentState) : AgentFinal ⊕ AgentState :=
  if s.inTurn = false then
    if s.lastAction = some "done" then
      .inl (.exhausted (summarise T s.q s.mem.sources))
    else if MAX_LOOPS ≤ s.loop then
      .inl (.exhausted (summarise T s.q s.mem.sources))
    else .inr { s with loop := s.loop + 1, actionsRun := 0, inTurn := true }
  else if ACTIONS_PER_TURN ≤ s.actionsRun then .inr { s with inTurn := false }
  else
    let hist1 := trimHistory T.backend s.hist
    let llmOut := streamUntilActions (T.stream hist1)
    if hasValidFormat llmOut = false then
      .inr { s with hist := hist1
        ++ "Observation: Reply must start with Thought: and contain an Action.\n".data }
    else
      match extractActions llmOut ACTION_LIMIT with
      | [] =>
        .inr { s with hist := hist1
          ++ "Observation: No valid Action detected; read instructions.\n".data }
      | (act, arg) :: _ =>
        match dispatch T s.q s.mem act arg with
        | .inl ans => .inl (.answered ans)
        | .inr om =>
          let hist2 := trimHistory T.backend
            (hist1 ++ llmOut ++ "\n\nObservation: ".data ++ om.1 ++ "\n".data)
          let hist3 := if MAX_HISTORY_CHARS < hist2.length then
            takeLast MAX_HISTORY_CHARS hist2 else hist2
          let s1 : AgentState :=
            { s with
              hist := hist3
              mem := om.2
              actionsRun := s.actionsRun + 1
              lastAction := some act }
          if act = "done" then .inr { s1 with inTurn := false } else .inr s1

/-- Iterated stepping of the loop, `fuel` bounding the number of steps (the
inner retry loop of the code has no intrinsic bound, see C3). -/
noncomputable def runAgent (T : Tools) : Nat → AgentState → AgentFinal ⊕ AgentState
  | 0, s => .inr s
  | n + 1, s =>
    match agentStep T s with
    | .inl f => .inl f
    | .inr s1 => runAgent T n s1

/-- The state at entry of `run_research_agent`. -/
def initState (q : List Char) : AgentState :=
  ⟨q, buildSystemPrompt q, Memory.empty, 0, 0, none, false⟩

lemma runAgent_succ_back (T : Tools) :
    ∀ (n : Nat) (s0 : AgentState),
      runAgent T (n + 1) s0
        = match runAgent T n s0 with
          | .inl f => .inl f
          | .inr s => agentStep T s := by
  have hstep : ∀ (k : Nat) (s : AgentState),
      runAgent T (k + 1) s
        = match agentStep T s with
          | .inl f => .inl f
          | .inr s1 => runAgent T k s1 := fun k s => rfl
  intro n
  induction n with
  | zero =>
    intro s0
    rw [hstep 0 s0]
    cases h : agentStep T s0 <;> exact h.symm
  | succ m ih =>
    intro s0
    rw [hstep (m + 1) s0]
    cases h : agentStep T s0 with
    | inl f => rw [hstep m s0, h]
    | inr s1 =>
      rw [hstep m s0, h]
      exact ih s1

set_option maxRecDepth 100000

-- ───────────── C1: a rejected `Done` ends the whole loop ─────────────

/-- The collaborators for the C1 run: the model immediately answers with a
thought and `Action: Done!`; the trimming backend always falls back to the
character path; the summariser returns `SUMMARY`. -/
noncomputable def c1Tools : Tools :=
  ⟨fun _ => [.tok "Thought: I know the answer already.\n".data,
             .tok "Action: Done!\n".data],
   ⟨8192, fun _ => none, fun _ => none⟩,
   fun _ => [], fun _ => [],
   ⟨fun _ => none, fun _ => [], fun _ _ => []⟩,
   fun _ => "SUMMARY".data, fun _ => []⟩

/-- **C1** (code bug): a `Done` dispatched with zero evidence and
`MIN_SUPPORT_SOURCES = 1` produces exactly the rejection observation
`"Only 0 source(s); need 1."` — but the turn loop then TERMINATES instead
of continuing: the `if action == "done": break` statements after the
dispatch (reachable only for a rejected `Done`, an honored one returns
first) break out of both loops, and the run ends after its first turn on
the max-loops summary path, not in the `Answered` state. -/
theorem C1_rejected_done_terminates :
    (∃ s : AgentState,
      runAgent c1Tools 2 (initState "QQ".data) = .inr s ∧
      s.hist = buildSystemPrompt "QQ".data
        ++ ("Thought: I know the answer already.\nAction: Done!"
            ++ "\n\nObservation: Only 0 source(s); need 1.\n").data ∧
      s.loop = 1 ∧ s.lastAction = some "done" ∧ s.inTurn = false) ∧
    runAgent c1Tools 3 (initState "QQ".data)
      = .inl (.exhausted (summarise c1Tools "QQ".data [])) ∧
    MAX_LOOPS = 4 :=
  ⟨⟨_, rfl, rfl, rfl, rfl, rfl⟩, rfl, rfl⟩

-- ───────────── C3: format retries are unbounded ─────────────

/-- The collaborators for the C3 run: the model always replies `garbage`
(never a well-formed block). -/
noncomputable def c3Tools : Tools :=
  ⟨fun _ => [.tok "garbage\n".data],
   ⟨8192, fun _ => none, fun _ => none⟩,
   fun _ => [], fun _ => [],
   ⟨fun _ => none, fun _ => [], fun _ _ => []⟩,
   fun _ => [], fun _ => []⟩

lemma c3_step (s : AgentState) (h1 : s.inTurn = true) (h2 : s.actionsRun = 0) :
    agentStep c3Tools s
      = .inr { s with hist := trimHistory c3Tools.backend s.hist
          ++ "Observation: Reply must start with Thought: and contain an Action.\n".data } := by
  unfold agentStep
  rw [h1]
  rw [if_neg (by simp)]
  rw [if_neg (by rw [h2]; decide)]
  rfl

/-- **C3 (amended)**: a model turn that is not well-formed makes the loop
append the corrective observation and retry without consuming an action
slot — but the number of retries within one turn is NOT bounded by the
per-turn action budget: with a model that never produces a well-formed
block, after any number of steps the loop is still inside its first turn
with zero action slots consumed, so a single turn need not terminate. -/
theorem C3_retry_unbounded_amended :
    ∀ n : Nat,
      ∃ s : AgentState,
        runAgent c3Tools (n + 1) (initState "QQ".data) = .inr s ∧
        s.inTurn = true ∧ s.actionsRun = 0 ∧ s.loop = 1 := by
  intro n
  induction n with
  | zero => exact ⟨_, rfl, rfl, rfl, rfl⟩
  | succ m ih =>
    obtain ⟨s, hrun, h1, h2, h3⟩ := ih
    refine ⟨{ s with hist := trimHistory c3Tools.backend s.hist
        ++ "Observation: Reply must start with Thought: and contain an Action.\n".data },
      ?_, h1, h2, h3⟩
    rw [runAgent_succ_back, hrun]
    exact c3_step s h1 h2

/-- **C3 counterexample**: after the turn begins, five further loop
iterations — one more than the per-turn action budget `ACTIONS_PER_TURN
= 4` — have each appended the corrective observation without consuming an
action slot, and the turn is still running: the retries are not bounded by
the inner per-turn action budget. -/
theorem C3_retry_bound_counterexample :
    ∃ s : AgentState,
      runAgent c3Tools 6 (initState "QQ".data) = .inr s ∧
      s.actionsRun = 0 ∧ s.inTurn = true ∧ s.loop = 1 ∧
      s.hist = buildSystemPrompt "QQ".data
        ++ (List.replicate 5
          "Observation: Reply must start with Thought: and contain an Action.\n".data).flatten :=
  ⟨_, rfl, rfl, rfl, rfl, rfl⟩

-- ───────────── C5: the streaming consumer ─────────────

/-- The collaborators for the C5 witness run: the stream raises at once. -/
noncomputable def c5Tools : Tools :=
  ⟨fun _ => [.err],
   ⟨8192, fun _ => none, fun _ => none⟩,
   fun _ => [], fun _ => [],
   ⟨fun _ => none, fun _ => [], fun _ _ => []⟩,
   fun _ => [], fun _ => []⟩

/-- A session state inside a turn, for the C5 witness. -/
def c5State : AgentState := ⟨"q".data, [], Memory.empty, 1, 0, none, true⟩

/-- **C5**: (i) once the consumption loop halts within a prefix of the
token stream — the first newline-completed line parses as an action, or
the stream raises — the tokens after that prefix are never consumed;
(ii) if the stream raises before any recognition, the consumer returns the
empty string instead of propagating; (iii) the empty string is not a valid
block; and (iv) the turn loop treats an empty consumer result as an
invalid block, appending the corrective observation instead of crashing. -/
theorem C5_stream_consumer (pre post : List StreamItem) (out curr : List Char)
    (T : Tools) (s : AgentState) :
    (consumeHalts pre curr = true →
      consumeAux (pre ++ post) out curr = consumeAux pre out curr) ∧
    (consumeHalts pre curr = false →
      consumeAux (pre ++ StreamItem.err :: post) out curr = []) ∧
    hasValidFormat [] = false ∧
    (s.inTurn = true → s.actionsRun < ACTIONS_PER_TURN →
      streamUntilActions (T.stream (trimHistory T.backend s.hist)) = [] →
      agentStep T s = .inr { s with hist := trimHistory T.backend s.hist
        ++ "Observation: Reply must start with Thought: and contain an Action.\n".data }) := by
  refine ⟨consumeAux_halt_append pre post out curr,
          consumeAux_err pre post out curr, by decide, ?_⟩
  intro h1 h2 h3
  unfold agentStep
  rw [h1]
  rw [if_neg (by simp)]
  rw [if_neg (by omega)]
  simp only [h3]
  rw [if_pos (by decide)]

/-- Witness for C5 at concrete streams, tools and state. -/
theorem C5_stream_consumer_witness :
    consumeAux ([StreamItem.tok "Action: Done!\n".data]
        ++ [StreamItem.tok "never consumed".data]) [] []
      = consumeAux [StreamItem.tok "Action: Done!\n".data] [] [] ∧
    consumeAux ([StreamItem.tok "no action here\n".data]
        ++ StreamItem.err :: [StreamItem.tok "after the error".data]) [] [] = [] ∧
    hasValidFormat [] = false ∧
    agentStep c5Tools c5State
      = .inr { c5State with hist := trimHistory c5Tools.backend c5State.hist
          ++ "Observation: Reply must start with Thought: and contain an Action.\n".data } := by
  refine ⟨(C5_stream_consumer [StreamItem.tok "Action: Done!\n".data]
      [StreamItem.tok "never consumed".data] [] [] c5Tools c5State).1 (by decide),
    (C5_stream_consumer [StreamItem.tok "no action here\n".data]
      [StreamItem.tok "after the error".data] [] [] c5Tools c5State).2.1 (by decide),
    (C5_stream_consumer [] [] [] [] c5Tools c5State).2.2.1,
    (C5_stream_consumer [] [] [] [] c5Tools c5State).2.2.2 rfl (by decide) rfl⟩

end AIWebAgent
